import Mathlib

/-!
Shallow embedding of the `debug-plotter` crate (`src/lib.rs`, module `debug`).

Rust `f64` sample values (`type PlotType = f64`) are modelled as rationals;
the sentinels `f64::MAX` / `f64::MIN` used by the min/max folds are the exact
rational values of those floats. `VecDeque` is modelled as a `List` whose head
is the front (`pop_front` = `tail`, `push_back` = append at the end). Panics
(`unwrap`, out-of-bounds indexing) are modelled by `Option`: `none` means the
Rust code panics.
-/

set_option autoImplicit false
set_option exponentiation.threshold 2000
set_option maxRecDepth 10000

namespace DebugPlotter

/-- `type PlotType = f64`, modelled as the rationals. -/
abbrev PlotType := ℚ

/-- A sample pair `(x, y)`. -/
abbrev Pt := PlotType × PlotType

/-- A `VecDeque<(PlotType, PlotType)>`: head of the list is the front. -/
abbrev Buf := List Pt

/-- The exact rational value of `f64::MAX = (2^53 - 1) * 2^971`. -/
def FMAX : PlotType := ((2 ^ 53 - 1) * 2 ^ 971 : Nat)

/-- The exact rational value of `f64::MIN = -f64::MAX`. -/
def FMIN : PlotType := -FMAX

/-- `struct Location { file, line, column }`. -/
structure Location where
  file : String
  line : Nat
  column : Nat
deriving DecidableEq

/-- `impl fmt::Display for Location`: `"{file}:{line}:{column}"`. -/
def Location.display (l : Location) : String :=
  l.file ++ ":" ++ toString l.line ++ ":" ++ toString l.column

/-- `struct Range<PlotType>` (Rust `std::ops::Range`): `start..end`. -/
structure FRange where
  start : PlotType
  stop : PlotType
deriving DecidableEq

/-- `#[derive(Default, Clone)] struct Options` (with the `live` feature on,
so the `live` field is present). -/
structure Options where
  caption : Option String := none
  size : Option (Nat × Nat) := none
  x_desc : Option String := none
  y_desc : Option String := none
  path : Option String := none
  x_range : Option FRange := none
  y_range : Option FRange := none
  values : Option Nat := none
  live : Option Bool := none
deriving DecidableEq

/-- `Options::default()`: every field unset. -/
def Options.default : Options := {}

/-- `struct Plot { values, names, options, iteration }`. -/
structure Plot where
  values : List Buf
  names : List String
  options : Options
  iteration : Nat
deriving DecidableEq

/-- `Plot::new(names, options)`: one empty buffer per name, iteration 0. -/
def Plot.new (names : List String) (options : Options) : Plot :=
  { values := List.replicate names.length []
    names := names
    options := options
    iteration := 0 }

/-- The body of the loop in `Plot::insert` for one buffer: if a window is set
and the buffer is at the window length, `pop_front` (drop the head; a no-op on
an empty deque), then `push_back` the new value. -/
def bufferPush (window : Option Nat) (buf : Buf) (v : Pt) : Buf :=
  match window with
  | some w => (if buf.length = w then buf.tail else buf) ++ [v]
  | none => buf ++ [v]

/-- Repeated `bufferPush` over a list of values inserted one at a time. -/
def bufferPushAll (window : Option Nat) (buf : Buf) (vs : List Pt) : Buf :=
  vs.foldl (bufferPush window) buf

/-- The loop of `Plot::insert`: for each index `i` of the argument array,
index `self.values[i]` (a panic — `none` — when out of bounds) and push the
`i`-th value into it. Buffers beyond the length of the argument are untouched. -/
def insertLoop (window : Option Nat) : List Buf → List Pt → Option (List Buf)
  | bufs, [] => some bufs
  | [], _ :: _ => none
  | b :: bufs, v :: vs => (insertLoop window bufs vs).map (bufferPush window b v :: ·)

/-- `Plot::insert(values)`: run the loop over the buffers, then increment the
iteration counter by one. `none` models the out-of-bounds panic. -/
def Plot.insert (p : Plot) (vals : List Pt) : Option Plot :=
  (insertLoop p.options.values p.values vals).map
    (fun bufs => { p with values := bufs, iteration := p.iteration + 1 })

/-- A sequence of `Plot::insert` calls. -/
def Plot.insertMany (p : Plot) (calls : List (List Pt)) : Option Plot :=
  calls.foldlM Plot.insert p

/-- `Plot::x_min`: fold `min`-like over the `x` of every sample of every
buffer, starting from `f64::MAX`. -/
def Plot.x_min (p : Plot) : PlotType :=
  ((p.values.map (fun b => b.map Prod.fst)).flatten).foldl
    (fun acc v => if v < acc then v else acc) FMAX

/-- `Plot::x_max`: fold `max`-like over the `x` values, starting from
`f64::MIN`. -/
def Plot.x_max (p : Plot) : PlotType :=
  ((p.values.map (fun b => b.map Prod.fst)).flatten).foldl
    (fun acc v => if v > acc then v else acc) FMIN

/-- `Plot::y_min`. -/
def Plot.y_min (p : Plot) : PlotType :=
  ((p.values.map (fun b => b.map Prod.snd)).flatten).foldl
    (fun acc v => if v < acc then v else acc) FMAX

/-- `Plot::y_max`. -/
def Plot.y_max (p : Plot) : PlotType :=
  ((p.values.map (fun b => b.map Prod.snd)).flatten).foldl
    (fun acc v => if v > acc then v else acc) FMIN

/-- All buffered `x` coordinates of a record, in buffer-then-insertion order
(the sequence the min/max folds traverse). -/
def Plot.allX (p : Plot) : List PlotType :=
  (p.values.map (fun b => b.map Prod.fst)).flatten

/-- All buffered `y` coordinates of a record. -/
def Plot.allY (p : Plot) : List PlotType :=
  (p.values.map (fun b => b.map Prod.snd)).flatten

/-- The x-range handed to `build_cartesian_2d`:
`self.options.x_range.clone().unwrap_or(self.x_min()..self.x_max())`. -/
def Plot.xRangeUsed (p : Plot) : FRange :=
  p.options.x_range.getD ⟨p.x_min, p.x_max⟩

/-- The y-range handed to `build_cartesian_2d`. -/
def Plot.yRangeUsed (p : Plot) : FRange :=
  p.options.y_range.getD ⟨p.y_min, p.y_max⟩

/-- `HSLColor(h, s, l)` from plotters, as used by `Plot::plot`. -/
structure HSLColor where
  h : PlotType
  s : PlotType
  l : PlotType
deriving DecidableEq

/-- The color of series `i` out of `total` in `Plot::plot`:
`HSLColor(i as f64 / self.names.len() as f64, 1.0, 0.5)`. -/
def colorFor (i total : Nat) : HSLColor :=
  ⟨(i : ℚ) / (total : ℚ), 1, 1 / 2⟩

/-- The chart content `Plot::plot` hands to the plotters backend: caption,
the two axis ranges from `build_cartesian_2d`, optional axis descriptions,
and per series its name, its color and its buffered points in order. -/
structure ChartDesc where
  caption : String
  x_range : FRange
  y_range : FRange
  x_desc : Option String
  y_desc : Option String
  series : List (String × HSLColor × List Pt)
deriving DecidableEq

/-- The series loop of `Plot::plot`:
`self.names.iter().zip(self.values.iter()).enumerate()`, drawing series `i`
with `colorFor i total` where `total = self.names.len()`. -/
def seriesDesc (total : Nat) : Nat → List String → List Buf →
    List (String × HSLColor × List Pt)
  | i, n :: ns, b :: bs => (n, colorFor i total, b) :: seriesDesc total (i + 1) ns bs
  | _, _, _ => []

/-- `Plot::plot`, reduced to the chart description it draws. The only panic
inside the in-scope logic is `self.options.caption.as_ref().unwrap()`;
drawing-backend errors are outside this model. -/
def Plot.plotDesc (p : Plot) : Option ChartDesc :=
  (p.options.caption).map (fun caption =>
    { caption := caption
      x_range := p.xRangeUsed
      y_range := p.yRangeUsed
      x_desc := p.options.x_desc
      y_desc := p.options.y_desc
      series := seriesDesc p.names.length 0 p.names p.values })

/-- `Plot::plot_to_file`, reduced to its observable output: the path written
(`self.options.path.as_ref().unwrap()`), the bitmap size
(`self.options.size.unwrap_or((640, 480))`), and the chart drawn. `none`
models a panic on a missing path or caption. -/
def Plot.plotToFile (p : Plot) : Option (String × (Nat × Nat) × ChartDesc) :=
  match p.options.path, p.plotDesc with
  | some path, some desc => some (path, p.options.size.getD (640, 480), desc)
  | _, _ => none

/-- `struct PlotWrapper { plot, window, live }`; the Piston window itself is
an external resource and is not modelled, only the `live` flag. -/
structure PlotWrapper where
  plot : Plot
  live : Bool
deriving DecidableEq

/-- The caption sanitization in `PlotWrapper::new`:
`caption.replace("/", "-").replace(" ", "_")`. -/
def sanitizeCaption (s : String) : String :=
  (s.replace "/" "-").replace " " "_"

/-- `PlotWrapper::new(names, location, options)`: resolve the caption to the
location display and the path to `plots/<sanitized caption>.png` when unset,
store them back into the options, read the `live` flag, and build the plot. -/
def PlotWrapper.new (names : List String) (location : Location)
    (options : Options) : PlotWrapper :=
  let caption := options.caption.getD (Location.display location)
  let path := options.path.getD ("plots/" ++ sanitizeCaption caption ++ ".png")
  let options := { options with caption := some caption, path := some path }
  let live := options.live.getD false
  { plot := Plot.new names options, live := live }

/-- `PlotWrapper::iteration`. -/
def PlotWrapper.iteration (w : PlotWrapper) : Nat :=
  w.plot.iteration

/-- `PlotWrapper::insert`: delegate to `Plot::insert` (the live-window redraw
touches no plot state). -/
def PlotWrapper.insert (w : PlotWrapper) (vals : List Pt) : Option PlotWrapper :=
  (w.plot.insert vals).map (fun p => { w with plot := p })

/-- `PlotWrapper::plot_to_file`: render to a file only when not live. -/
def PlotWrapper.plotToFile (w : PlotWrapper) :
    Option (Option (String × (Nat × Nat) × ChartDesc)) :=
  if w.live then some none else (w.plot.plotToFile).map some

/-- The registry `Plots`: its `HashMap<Location, PlotWrapper>` modelled as an
association list in iteration order. -/
abbrev Registry := List (Location × PlotWrapper)

/-- Map lookup by location key. -/
def regLookup : Registry → Location → Option PlotWrapper
  | [], _ => none
  | (l, w) :: rest, loc => if l = loc then some w else regLookup rest loc

/-- Replace the record stored at a location (the write-back of the mutation
done through the `entry` handle). -/
def regSet : Registry → Location → PlotWrapper → Registry
  | [], _, _ => []
  | (l, w) :: rest, loc, wNew =>
      if l = loc then (l, wNew) :: rest else (l, w) :: regSet rest loc wNew

/-- `map.entry(location).or_insert_with(|| PlotWrapper::new(names, location,
options))`: reuse the stored record when present, otherwise build one from
this invocation's names and options and insert it. -/
def getOrCreate (st : Registry) (loc : Location) (names : List String)
    (options : Options) : PlotWrapper × Registry :=
  match regLookup st loc with
  | some w => (w, st)
  | none =>
      let w := PlotWrapper.new names loc options
      (w, st ++ [(loc, w)])

/-- One expansion of the `plot!` macro body: look up or create the record for
the location, read `plot.iteration()`, build the value array from it
(`mkVals` abstracts the per-variable value expressions), and insert. -/
def macroStep (st : Registry) (loc : Location) (names : List String)
    (options : Options) (mkVals : Nat → List Pt) : Option Registry :=
  let g := getOrCreate st loc names options
  (g.1.insert (mkVals g.1.iteration)).map (regSet g.2 loc)

/-- The teardown loop of `impl Drop for Plots`, reduced to which records get a
`Plot::plot_to_file` call: live records are skipped. -/
def teardownRenders (m : Registry) : List Location :=
  m.filterMap (fun e => if e.2.live then none else some e.1)

/-- The teardown loop with fallible file rendering. `fails loc = true` means
the I/O of rendering the record at `loc` (directory creation or file write)
fails; the code unwraps that failure, so the loop panics: no further record is
visited. Returns the locations actually rendered and whether a panic
occurred. -/
def teardownFallible (fails : Location → Bool) : Registry → List Location × Bool
  | [] => ([], false)
  | (loc, w) :: rest =>
      if w.live then teardownFallible fails rest
      else if fails loc then ([], true)
      else
        let r := teardownFallible fails rest
        (loc :: r.1, r.2)

/-- The value array built by one `plot!` invocation that declares a single
bare variable: `(iteration.to_plot_type(), $variable.to_plot_type())` where
`iteration` is `plot.iteration()` read before the insert. -/
def bareInvoke (w : PlotWrapper) (y : PlotType) : Option PlotWrapper :=
  w.insert [((w.iteration : ℚ), y)]

/-- A sequence of single-bare-variable `plot!` invocations at one call site. -/
def bareInvokeAll (w : PlotWrapper) (ys : List PlotType) : Option PlotWrapper :=
  ys.foldlM bareInvoke w

/-- The value array built by one `plot!` invocation that declares a single
explicit pair: `($x.to_plot_type(), $y.to_plot_type())`. -/
def pairInvoke (w : PlotWrapper) (x y : PlotType) : Option PlotWrapper :=
  w.insert [(x, y)]

/-! ## Window policy of `Plot::insert` -/

lemma bufferPushAll_none_eq (buf : Buf) (vs : List Pt) :
    bufferPushAll none buf vs = buf ++ vs := by
  induction vs generalizing buf with
  | nil => simp [bufferPushAll]
  | cons v vs ih =>
      have h : bufferPush none buf v = buf ++ [v] := rfl
      simp only [bufferPushAll, List.foldl_cons] at *
      rw [h, ih]
      simp

lemma bufferPushAll_some_eq (w : Nat) (hw : 1 ≤ w) :
    ∀ (vs : List Pt) (buf : Buf), buf.length ≤ w →
      bufferPushAll (some w) buf vs = (buf ++ vs).drop (buf.length + vs.length - w)
  | [], buf, h => by
      simp only [bufferPushAll, List.foldl_nil, List.append_nil, List.length_nil,
        Nat.add_zero]
      rw [Nat.sub_eq_zero_of_le h, List.drop_zero]
  | v :: vs, buf, h => by
      simp only [bufferPushAll, List.foldl_cons]
      by_cases hbw : buf.length = w
      · cases buf with
        | nil => simp at hbw; omega
        | cons a t =>
            have hlen : (bufferPush (some w) (a :: t) v).length = w := by
              simp [bufferPush, hbw]
              simp at hbw
              omega
            have hpush : bufferPush (some w) (a :: t) v = t ++ [v] := by
              simp [bufferPush, hbw]
            have ih := bufferPushAll_some_eq w hw vs (t ++ [v]) (le_of_eq (hpush ▸ hlen))
            simp only [bufferPushAll] at ih
            rw [hpush, ih]
            have h1 : (t ++ [v]).length + vs.length - w = vs.length := by
              simp at hbw ⊢
              omega
            have h2 : (a :: t).length + (v :: vs).length - w = vs.length + 1 := by
              simp at hbw ⊢
              omega
            rw [h1, h2, List.cons_append, List.drop_succ_cons, List.append_assoc]
            simp
      · have hlt : buf.length < w := lt_of_le_of_ne h hbw
        have hpush : bufferPush (some w) buf v = buf ++ [v] := by
          simp [bufferPush, hbw]
        have ih := bufferPushAll_some_eq w hw vs (buf ++ [v]) (by simp; omega)
        simp only [bufferPushAll] at ih
        rw [hpush, ih]
        have h1 : (buf ++ [v]).length + vs.length = buf.length + (v :: vs).length := by
          simp
          omega
        rw [List.append_assoc, h1]
        simp

/-- Claim C1 (amended to require W ≥ 1 when a window is configured): for a
window W ≥ 1, after inserting the sequence `vs` into an initially empty
buffer the buffer holds exactly the last `min(N, W)` inserted pairs in their
original order, and with no window it holds all N pairs. -/
theorem series_buffer_window (w : Nat) (vs : List Pt) (hw : 1 ≤ w) :
    (bufferPushAll (some w) [] vs).length = min vs.length w
    ∧ bufferPushAll (some w) [] vs = vs.drop (vs.length - w)
    ∧ bufferPushAll none [] vs = vs := by
  have h := bufferPushAll_some_eq w hw vs [] (by simp)
  simp only [List.nil_append, List.length_nil, Nat.zero_add] at h
  refine ⟨?_, h, by simpa using bufferPushAll_none_eq [] vs⟩
  rw [h, List.length_drop]
  omega

/-- Claim C1 counterexample: with configured window W = 0 (allowed by the
claim's "W >= 0"), a single insertion leaves 1 pair in the buffer, not
`min(1, 0) = 0`: the eviction check `len == 0` only fires on the empty
buffer, whose `pop_front` is a no-op. -/
theorem series_buffer_window_zero_cex :
    (bufferPushAll (some 0) [] [((0 : ℚ), (0 : ℚ))]).length ≠ min 1 0 := by
  decide

/-- Witness for `series_buffer_window` at W = 2 and three insertions. -/
theorem series_buffer_window_witness :
    (bufferPushAll (some 2) []
        [((0 : ℚ), (1 : ℚ)), ((1 : ℚ), (2 : ℚ)), ((2 : ℚ), (3 : ℚ))]).length
      = min 3 2
    ∧ bufferPushAll (some 2) []
        [((0 : ℚ), (1 : ℚ)), ((1 : ℚ), (2 : ℚ)), ((2 : ℚ), (3 : ℚ))]
      = [((0 : ℚ), (1 : ℚ)), ((1 : ℚ), (2 : ℚ)), ((2 : ℚ), (3 : ℚ))].drop (3 - 2)
    ∧ bufferPushAll none []
        [((0 : ℚ), (1 : ℚ)), ((1 : ℚ), (2 : ℚ)), ((2 : ℚ), (3 : ℚ))]
      = [((0 : ℚ), (1 : ℚ)), ((1 : ℚ), (2 : ℚ)), ((2 : ℚ), (3 : ℚ))] :=
  series_buffer_window 2
    [((0 : ℚ), (1 : ℚ)), ((1 : ℚ), (2 : ℚ)), ((2 : ℚ), (3 : ℚ))] (by decide)

/-! ## Iteration counter and in-bounds insertion -/

lemma insert_iteration_succ (p : Plot) (vals : List Pt) (q : Plot)
    (h : p.insert vals = some q) : q.iteration = p.iteration + 1 := by
  rcases hl : insertLoop p.options.values p.values vals with _ | bufs <;>
    rw [Plot.insert, hl] at h
  · simp at h
  · simp only [Option.map_some'] at h
    cases h
    rfl

lemma insertMany_iteration (calls : List (List Pt)) : ∀ (p q : Plot),
    p.insertMany calls = some q → q.iteration = p.iteration + calls.length := by
  induction calls with
  | nil =>
      intro p q h
      simp only [Plot.insertMany, List.foldlM_nil, Option.pure_def,
        Option.some.injEq] at h
      simp [← h]
  | cons c cs ih =>
      intro p q h
      simp only [Plot.insertMany, List.foldlM_cons] at h
      rcases hc : p.insert c with _ | p1 <;> rw [hc] at h
      · simp at h
      · simp only [Option.bind_eq_bind, Option.some_bind] at h
        have h1 := ih p1 q h
        have h2 := insert_iteration_succ p c p1 hc
        simp [h1, h2, List.length_cons]
        omega

/-- Claim C7: one `Plot::insert` call increments the iteration counter by
exactly 1, independent of how many values the call carries, so after K calls
on a fresh record the counter is exactly K. -/
theorem iteration_counter (p q r : Plot) (vals : List Pt)
    (names : List String) (opts : Options) (calls : List (List Pt))
    (h1 : p.insert vals = some q)
    (h2 : (Plot.new names opts).insertMany calls = some r) :
    q.iteration = p.iteration + 1 ∧ r.iteration = calls.length := by
  refine ⟨insert_iteration_succ p vals q h1, ?_⟩
  have h := insertMany_iteration calls (Plot.new names opts) r h2
  simpa [Plot.new] using h

def witPlotP : Plot := Plot.new ["a", "b"] {}

def witVals : List Pt := [((0 : ℚ), (1 : ℚ)), ((0 : ℚ), (2 : ℚ))]

def witPlotQ : Plot :=
  { values := [[((0 : ℚ), (1 : ℚ))], [((0 : ℚ), (2 : ℚ))]]
    names := ["a", "b"]
    options := {}
    iteration := 1 }

def witCalls : List (List Pt) := [[((0 : ℚ), (5 : ℚ))], [((1 : ℚ), (7 : ℚ))]]

def witPlotR : Plot :=
  { values := [[((0 : ℚ), (5 : ℚ)), ((1 : ℚ), (7 : ℚ))]]
    names := ["c"]
    options := {}
    iteration := 2 }

/-- Witness for `iteration_counter`: a two-series record after one insert and
a one-series record after two inserts. -/
theorem iteration_counter_witness :
    witPlotQ.iteration = witPlotP.iteration + 1
    ∧ witPlotR.iteration = witCalls.length :=
  iteration_counter witPlotP witPlotQ witPlotR witVals ["c"] {} witCalls
    (by decide) (by decide)

lemma insertLoop_zipWith (w : Option Nat) :
    ∀ (vals : List Pt) (bufs : List Buf), vals.length ≤ bufs.length →
      insertLoop w bufs vals
        = some (List.zipWith (bufferPush w) bufs vals ++ bufs.drop vals.length)
  | [], bufs, _ => by simp [insertLoop]
  | v :: vs, [], h => by simp at h
  | v :: vs, b :: bs, h => by
      simp only [insertLoop]
      rw [insertLoop_zipWith w vs bs (by simpa using h)]
      simp [List.zipWith]

/-- Claim C10: inserting a value array whose length equals the number of
buffers never goes out of bounds (the call is total), leaves the number of
buffers equal to the number of names, and pushes the `i`-th value into the
`i`-th buffer. -/
theorem insert_inbounds (p : Plot) (vals : List Pt)
    (h : vals.length = p.values.length) (h2 : p.values.length = p.names.length) :
    p.insert vals
      = some { p with
          values := List.zipWith (bufferPush p.options.values) p.values vals,
          iteration := p.iteration + 1 }
    ∧ (List.zipWith (bufferPush p.options.values) p.values vals).length
        = p.names.length := by
  have hl := insertLoop_zipWith p.options.values vals p.values (le_of_eq h)
  have hdrop : p.values.drop vals.length = [] := by
    rw [h]
    simp
  constructor
  · rw [Plot.insert, hl, hdrop, List.append_nil]
    rfl
  · rw [List.length_zipWith]
    omega

/-- Witness for `insert_inbounds`: a fresh two-series record accepting a
two-value array. -/
theorem insert_inbounds_witness :
    witPlotP.insert witVals
      = some { witPlotP with
          values := List.zipWith (bufferPush witPlotP.options.values)
            witPlotP.values witVals,
          iteration := witPlotP.iteration + 1 }
    ∧ (List.zipWith (bufferPush witPlotP.options.values) witPlotP.values
        witVals).length = witPlotP.names.length :=
  insert_inbounds witPlotP witVals (by decide) (by decide)

/-! ## The x-coordinate convention of the macro layer -/

lemma bareInvoke_step (w : PlotWrapper) (b : Buf) (y : PlotType)
    (h1 : w.plot.options.values = none) (h2 : w.plot.values = [b]) :
    bareInvoke w y = some
      { w with plot := { w.plot with
          values := [b ++ [((w.plot.iteration : ℚ), y)]],
          iteration := w.plot.iteration + 1 } } := by
  simp [bareInvoke, PlotWrapper.insert, PlotWrapper.iteration, Plot.insert, h1,
    h2, insertLoop, bufferPush]

lemma pairInvoke_step (w : PlotWrapper) (b : Buf) (x y : PlotType)
    (h1 : w.plot.options.values = none) (h2 : w.plot.values = [b]) :
    pairInvoke w x y = some
      { w with plot := { w.plot with
          values := [b ++ [(x, y)]],
          iteration := w.plot.iteration + 1 } } := by
  simp [pairInvoke, PlotWrapper.insert, Plot.insert, h1, h2, insertLoop,
    bufferPush]

lemma bareInvokeAll_values :
    ∀ (ys : List PlotType) (w : PlotWrapper) (b : Buf),
      w.plot.options.values = none → w.plot.values = [b] →
      ∃ wq, bareInvokeAll w ys = some wq
        ∧ wq.plot.values
            = [b ++ (List.enumFrom w.plot.iteration ys).map
                (fun iy => ((iy.1 : ℚ), iy.2))]
        ∧ wq.plot.iteration = w.plot.iteration + ys.length
        ∧ wq.plot.options = w.plot.options
  | [], w, b, h1, h2 => by
      refine ⟨w, by simp [bareInvokeAll], ?_, by simp, rfl⟩
      simp [h2, List.enumFrom]
  | y :: ys, w, b, h1, h2 => by
      have hstep := bareInvoke_step w b y h1 h2
      obtain ⟨wq, hq, hv, hit, hopt⟩ := bareInvokeAll_values ys
        { w with plot := { w.plot with
            values := [b ++ [((w.plot.iteration : ℚ), y)]],
            iteration := w.plot.iteration + 1 } }
        (b ++ [((w.plot.iteration : ℚ), y)]) h1 rfl
      refine ⟨wq, ?_, ?_, ?_, hopt⟩
      · simp only [bareInvokeAll, List.foldlM_cons] at hq ⊢
        rw [hstep]
        simpa using hq
      · rw [hv]
        simp [List.enumFrom, List.append_assoc]
      · rw [hit]
        simp
        omega

/-- Claim C8: at a call site declaring a single bare variable, the x of the
k-th recorded sample is the iteration counter read before that call's
increment, i.e. k-1 (the first point has x = 0); at a call site declaring an
explicit pair, the recorded x is the user-supplied first element. -/
theorem x_coordinate_convention (loc : Location) (opts : Options)
    (name : String) (ys : List PlotType) (wq : PlotWrapper)
    (wp wr : PlotWrapper) (b : Buf) (x y : PlotType)
    (hopts : opts.values = none)
    (hbare : bareInvokeAll (PlotWrapper.new [name] loc opts) ys = some wq)
    (hpv : wp.plot.options.values = none)
    (hpb : wp.plot.values = [b])
    (hpair : pairInvoke wp x y = some wr) :
    wq.plot.values = [ys.enum.map (fun iy => ((iy.1 : ℚ), iy.2))]
    ∧ wr.plot.values = [b ++ [(x, y)]] := by
  constructor
  · obtain ⟨wq2, he, hv, _, _⟩ := bareInvokeAll_values ys
      (PlotWrapper.new [name] loc opts) []
      (by simp [PlotWrapper.new, Plot.new, hopts])
      (by simp [PlotWrapper.new, Plot.new, List.replicate])
    rw [hbare] at he
    cases he
    rw [hv]
    have hit : (PlotWrapper.new [name] loc opts).plot.iteration = 0 := rfl
    rw [hit, List.enum]
    simp
  · rw [pairInvoke_step wp b x y hpv hpb] at hpair
    cases hpair
    rfl

def witLoc : Location := ⟨"f", 1, 1⟩

def witOpts : Options := { caption := some "c", path := some "p" }

def witBareW : PlotWrapper := PlotWrapper.new ["a"] witLoc witOpts

def witBareQ : PlotWrapper :=
  { plot :=
      { values := [[((0 : ℚ), (5 : ℚ)), ((1 : ℚ), (6 : ℚ))]]
        names := ["a"]
        options := witOpts
        iteration := 2 }
    live := false }

def witPairR : PlotWrapper :=
  { plot :=
      { values := [[((0 : ℚ), (5 : ℚ)), ((1 : ℚ), (6 : ℚ)), ((9 : ℚ), (4 : ℚ))]]
        names := ["a"]
        options := witOpts
        iteration := 3 }
    live := false }

/-- Witness for `x_coordinate_convention`: two bare invocations record x = 0
and x = 1; an explicit pair invocation records the supplied x = 9. -/
theorem x_coordinate_convention_witness :
    witBareQ.plot.values
      = [([(5 : ℚ), (6 : ℚ)].enum).map (fun iy => ((iy.1 : ℚ), iy.2))]
    ∧ witPairR.plot.values
      = [[((0 : ℚ), (5 : ℚ)), ((1 : ℚ), (6 : ℚ))] ++ [((9 : ℚ), (4 : ℚ))]] :=
  x_coordinate_convention witLoc witOpts "a" [(5 : ℚ), (6 : ℚ)] witBareQ
    witBareQ witPairR [((0 : ℚ), (5 : ℚ)), ((1 : ℚ), (6 : ℚ))] (9 : ℚ) (4 : ℚ)
    (by decide) (by decide) (by decide) (by decide) (by decide)

/-! ## Registry teardown -/

lemma teardownRenders_subset (m : Registry) (loc : Location)
    (h : loc ∈ teardownRenders m) : loc ∈ m.map Prod.fst := by
  obtain ⟨e, hm, he⟩ := List.mem_filterMap.mp h
  by_cases hl : e.2.live
  · simp [hl] at he
  · rw [if_neg hl] at he
    have he2 : e.1 = loc := Option.some.inj he
    exact he2 ▸ List.mem_map_of_mem Prod.fst hm

lemma teardownRenders_cons (l0 : Location) (w0 : PlotWrapper) (rest : Registry) :
    teardownRenders ((l0, w0) :: rest)
      = if w0.live then teardownRenders rest else l0 :: teardownRenders rest := by
  by_cases hl : w0.live <;> simp [teardownRenders, List.filterMap_cons, hl]

/-- Claim C2: at teardown, over a registry with pairwise distinct location
keys, every resident non-live record receives exactly one render-to-file
call and every live record receives none. -/
theorem teardown_renders_once (m : Registry) (loc : Location) (w : PlotWrapper)
    (hmem : (loc, w) ∈ m) (hnd : (m.map Prod.fst).Nodup) :
    (teardownRenders m).count loc = if w.live then 0 else 1 := by
  induction m with
  | nil => simp at hmem
  | cons e rest ih =>
      obtain ⟨l0, w0⟩ := e
      rw [List.map_cons] at hnd
      have hnd2 := List.nodup_cons.mp hnd
      rw [teardownRenders_cons]
      rcases List.mem_cons.mp hmem with heq | hmem2
      · cases heq
        have hnotin : loc ∉ teardownRenders rest := fun hc =>
          hnd2.1 (teardownRenders_subset rest loc hc)
        by_cases hl : w.live
        · rw [if_pos hl, if_pos hl]
          exact List.count_eq_zero.mpr hnotin
        · rw [if_neg hl, if_neg hl, List.count_cons_self,
            List.count_eq_zero.mpr hnotin]
      · have hlocin : loc ∈ rest.map Prod.fst := by
          simpa using List.mem_map_of_mem Prod.fst hmem2
        have hneq : l0 ≠ loc := fun h => hnd2.1 (by simpa [h] using hlocin)
        have hih := ih hmem2 hnd2.2
        by_cases hl : w0.live
        · rw [if_pos hl]
          exact hih
        · rw [if_neg hl, List.count_cons_of_ne (fun h => hneq h.symm)]
          exact hih

def witLocLive : Location := ⟨"f", 7, 3⟩

def witLiveW : PlotWrapper := { plot := Plot.new ["a"] {}, live := true }

def witFileW : PlotWrapper := { plot := Plot.new ["a"] {}, live := false }

def witRegistry : Registry := [(witLocLive, witLiveW), (witLoc, witFileW)]

/-- Witness for `teardown_renders_once`: in a registry holding one live and
one non-live record, the non-live one is rendered exactly once. -/
theorem teardown_renders_once_witness :
    (teardownRenders witRegistry).count witLoc = if witFileW.live then 0 else 1 :=
  teardown_renders_once witRegistry witLoc witFileW
    (List.mem_cons_of_mem _ (List.mem_cons_self _ _)) (by decide)

/-- Claim C3 (amended): a render failure at teardown is not isolated — the
`unwrap` panics, so exactly the non-live records strictly before the first
failing non-live record are rendered, and every record from the failing one
on is not flushed. -/
theorem teardown_abort_on_failure (fails : Location → Bool) (m : Registry) :
    (teardownFallible fails m).1
      = teardownRenders (m.takeWhile (fun e => !((!e.2.live) && fails e.1)))
    ∧ (teardownFallible fails m).2 = m.any (fun e => (!e.2.live) && fails e.1) := by
  induction m with
  | nil => simp [teardownFallible, teardownRenders]
  | cons e rest ih =>
      obtain ⟨loc, w⟩ := e
      by_cases hl : w.live
      · simpa [teardownFallible, hl, List.takeWhile_cons, teardownRenders]
          using ih
      · by_cases hf : fails loc
        · simp [teardownFallible, hl, hf, List.takeWhile_cons, teardownRenders]
        · simpa [teardownFallible, hl, hf, List.takeWhile_cons, teardownRenders]
            using ih

def cexL1 : Location := ⟨"f", 1, 1⟩

def cexL2 : Location := ⟨"f", 2, 1⟩

def cexW : PlotWrapper := { plot := Plot.new ["a"] {}, live := false }

def cexRegistry : Registry := [(cexL1, cexW), (cexL2, cexW)]

def cexFails (l : Location) : Bool := l.line == 1

/-- Claim C3 counterexample: the registry holds two non-live records; the
render of the first fails, the second's own render does not fail, yet the
teardown renders nothing at all — the second record's flush is prevented by
the first record's failure. -/
theorem teardown_isolation_cex :
    cexW.live = false ∧ cexFails cexL2 = false
    ∧ (cexL2, cexW) ∈ cexRegistry
    ∧ (teardownFallible cexFails cexRegistry).1 = [] :=
  ⟨rfl, rfl, List.mem_cons_of_mem _ (List.mem_cons_self _ _), rfl⟩

/-! ## Registry lookup and creation -/

lemma regLookup_regSet_ne (m : Registry) (loc loc2 : Location) (w : PlotWrapper)
    (h : loc2 ≠ loc) : regLookup (regSet m loc w) loc2 = regLookup m loc2 := by
  induction m with
  | nil => rfl
  | cons e rest ih =>
      obtain ⟨l, v⟩ := e
      by_cases hl : l = loc
      · rw [regSet, if_pos hl, regLookup, regLookup,
          if_neg (fun hx => h (hx.symm.trans hl)), if_neg (fun hx => h (hx.symm.trans hl))]
      · rw [regSet, if_neg hl, regLookup, regLookup]
        by_cases hx : l = loc2
        · rw [if_pos hx, if_pos hx]
        · rw [if_neg hx, if_neg hx, ih]

lemma regLookup_regSet_self (m : Registry) (loc : Location) (w v : PlotWrapper)
    (h : regLookup m loc = some v) : regLookup (regSet m loc w) loc = some w := by
  induction m with
  | nil => cases h
  | cons e rest ih =>
      obtain ⟨l, u⟩ := e
      by_cases hl : l = loc
      · rw [regSet, if_pos hl, regLookup, if_pos hl]
      · rw [regLookup, if_neg hl] at h
        rw [regSet, if_neg hl, regLookup, if_neg hl]
        exact ih h

lemma regLookup_append_some (m l2 : Registry) (loc : Location) (v : PlotWrapper)
    (h : regLookup m loc = some v) : regLookup (m ++ l2) loc = some v := by
  induction m with
  | nil => cases h
  | cons e rest ih =>
      obtain ⟨l, u⟩ := e
      by_cases hl : l = loc
      · rw [regLookup, if_pos hl] at h
        rw [List.cons_append, regLookup, if_pos hl]
        exact h
      · rw [regLookup, if_neg hl] at h
        rw [List.cons_append, regLookup, if_neg hl]
        exact ih h

lemma regLookup_append_none (m l2 : Registry) (loc : Location)
    (h : regLookup m loc = none) : regLookup (m ++ l2) loc = regLookup l2 loc := by
  induction m with
  | nil => rfl
  | cons e rest ih =>
      obtain ⟨l, u⟩ := e
      by_cases hl : l = loc
      · rw [regLookup, if_pos hl] at h
        cases h
      · rw [regLookup, if_neg hl] at h
        rw [List.cons_append, regLookup, if_neg hl]
        exact ih h

lemma getOrCreate_lookup_self (st : Registry) (loc : Location)
    (ns : List String) (o : Options) :
    regLookup (getOrCreate st loc ns o).2 loc = some (getOrCreate st loc ns o).1 := by
  rw [getOrCreate]
  cases h : regLookup st loc with
  | some w => simpa using h
  | none =>
      simp only
      rw [regLookup_append_none st _ loc h, regLookup, if_pos rfl]

lemma getOrCreate_lookup_ne (st : Registry) (loc loc2 : Location)
    (ns : List String) (o : Options) (h : loc2 ≠ loc) :
    regLookup (getOrCreate st loc ns o).2 loc2 = regLookup st loc2 := by
  rw [getOrCreate]
  cases hx : regLookup st loc with
  | some w => rfl
  | none =>
      simp only
      cases h2 : regLookup st loc2 with
      | some v => exact regLookup_append_some st _ loc2 v h2
      | none =>
          rw [regLookup_append_none st _ loc2 h2, regLookup,
            if_neg (fun hx2 => h hx2.symm), regLookup]

/-- Claim C6: the registry keys records by source location. A lookup hit
reuses the stored record and ignores the invocation's own names and options;
a miss creates the record from this first invocation's names and options and
appends it; a macro invocation at one location leaves the record stored at
every other location untouched (distinct locations never share a record) and
never removes the record at its own location. -/
theorem registry_per_location (st t u u2 : Registry)
    (loc tloc uloc uloc2 : Location) (w w2 : PlotWrapper)
    (names2 tnames unames : List String) (opts2 topts uopts : Options)
    (mk : Nat → List Pt)
    (h1 : regLookup st loc = some w)
    (h2 : regLookup t tloc = none)
    (h3 : uloc2 ≠ uloc)
    (h4 : macroStep u uloc unames uopts mk = some u2)
    (h5 : regLookup u uloc2 = some w2) :
    getOrCreate st loc names2 opts2 = (w, st)
    ∧ getOrCreate t tloc tnames topts
        = (PlotWrapper.new tnames tloc topts,
            t ++ [(tloc, PlotWrapper.new tnames tloc topts)])
    ∧ regLookup u2 uloc2 = some w2
    ∧ (regLookup u2 uloc).isSome = true := by
  refine ⟨by rw [getOrCreate, h1], by rw [getOrCreate, h2], ?_, ?_⟩
  · rw [macroStep] at h4
    cases hins : ((getOrCreate u uloc unames uopts).1.insert
        (mk (getOrCreate u uloc unames uopts).1.iteration)) with
    | none => rw [hins] at h4; cases h4
    | some w3 =>
        rw [hins, Option.map_some'] at h4
        cases h4
        rw [regLookup_regSet_ne _ _ _ _ h3,
          getOrCreate_lookup_ne u uloc uloc2 unames uopts h3, h5]
  · rw [macroStep] at h4
    cases hins : ((getOrCreate u uloc unames uopts).1.insert
        (mk (getOrCreate u uloc unames uopts).1.iteration)) with
    | none => rw [hins] at h4; cases h4
    | some w3 =>
        rw [hins, Option.map_some'] at h4
        cases h4
        rw [regLookup_regSet_self _ uloc w3 _
          (getOrCreate_lookup_self u uloc unames uopts)]
        rfl

def witLocB : Location := ⟨"g", 3, 9⟩

def witRegU : Registry := [(witLoc, witFileW), (witLocB, witFileW)]

def witFileW2 : PlotWrapper :=
  { plot :=
      { values := [[((0 : ℚ), (0 : ℚ))]]
        names := ["a"]
        options := {}
        iteration := 1 }
    live := false }

def witRegU2 : Registry := [(witLoc, witFileW), (witLocB, witFileW2)]

/-- Witness for `registry_per_location`: a hit reuses the stored record; a
miss on the empty registry creates and appends; an invocation at `witLocB`
leaves the record at `witLoc` unchanged and keeps its own record resident. -/
theorem registry_per_location_witness :
    getOrCreate witRegU witLoc ["other"] { values := some 9 } = (witFileW, witRegU)
    ∧ getOrCreate [] witLocB ["t"] {}
        = (PlotWrapper.new ["t"] witLocB {},
            [] ++ [(witLocB, PlotWrapper.new ["t"] witLocB {})])
    ∧ regLookup witRegU2 witLoc = some witFileW
    ∧ (regLookup witRegU2 witLocB).isSome = true :=
  registry_per_location witRegU [] witRegU witRegU2 witLoc witLocB witLocB
    witLoc witFileW witFileW ["other"] ["t"] ["a"] { values := some 9 } {} {}
    (fun n => [((n : ℚ), (0 : ℚ))]) (by decide) (by decide) (by decide)
    (by decide) (by decide)

/-! ## Axis-range computation -/

instance : Std.Antisymm (fun a b : ℚ => a ≤ b) :=
  ⟨fun h1 h2 => le_antisymm h1 h2⟩

lemma foldMin_mem : ∀ (l : List ℚ) (a : ℚ),
    l.foldl (fun acc v => if v < acc then v else acc) a ∈ a :: l
  | [], _ => by simp
  | v :: vs, a => by
      have h := foldMin_mem vs (if v < a then v else a)
      simp only [List.foldl_cons]
      rcases List.mem_cons.mp h with h | h
      · rw [h]
        split_ifs <;> simp
      · simp [h]

lemma foldMin_le : ∀ (l : List ℚ) (a x : ℚ), x ∈ a :: l →
    l.foldl (fun acc v => if v < acc then v else acc) a ≤ x
  | [], a, x, hx => by
      simp at hx
      simp [hx]
  | v :: vs, a, x, hx => by
      simp only [List.foldl_cons]
      have hia : (if v < a then v else a) ≤ a := by
        split_ifs with h
        · exact le_of_lt h
        · exact le_refl a
      have hiv : (if v < a then v else a) ≤ v := by
        split_ifs with h
        · exact le_refl v
        · exact le_of_not_lt h
      have hfold := foldMin_le vs (if v < a then v else a) (if v < a then v else a)
        (List.mem_cons_self _ _)
      rcases List.mem_cons.mp hx with rfl | hx2
      · exact le_trans hfold hia
      rcases List.mem_cons.mp hx2 with rfl | hx3
      · exact le_trans hfold hiv
      · exact foldMin_le vs _ x (List.mem_cons_of_mem _ hx3)

lemma foldMax_mem : ∀ (l : List ℚ) (a : ℚ),
    l.foldl (fun acc v => if v > acc then v else acc) a ∈ a :: l
  | [], _ => by simp
  | v :: vs, a => by
      have h := foldMax_mem vs (if v > a then v else a)
      simp only [List.foldl_cons]
      rcases List.mem_cons.mp h with h | h
      · rw [h]
        split_ifs <;> simp
      · simp [h]

lemma foldMax_ge : ∀ (l : List ℚ) (a x : ℚ), x ∈ a :: l →
    x ≤ l.foldl (fun acc v => if v > acc then v else acc) a
  | [], a, x, hx => by
      simp at hx
      simp [hx]
  | v :: vs, a, x, hx => by
      simp only [List.foldl_cons]
      have hia : a ≤ (if v > a then v else a) := by
        split_ifs with h
        · exact le_of_lt h
        · exact le_refl a
      have hiv : v ≤ (if v > a then v else a) := by
        split_ifs with h
        · exact le_refl v
        · exact le_of_not_lt h
      have hfold := foldMax_ge vs (if v > a then v else a) (if v > a then v else a)
        (List.mem_cons_self _ _)
      rcases List.mem_cons.mp hx with rfl | hx2
      · exact le_trans hia hfold
      rcases List.mem_cons.mp hx2 with rfl | hx3
      · exact le_trans hiv hfold
      · exact foldMax_ge vs _ x (List.mem_cons_of_mem _ hx3)

lemma foldMin_spec (l : List ℚ) (hne : l ≠ [])
    (hb : ∀ v ∈ l, v ≤ FMAX) :
    l.min? = some (l.foldl (fun acc v => if v < acc then v else acc) FMAX) := by
  have hle : ∀ b ∈ l, l.foldl (fun acc v => if v < acc then v else acc) FMAX ≤ b :=
    fun b hb2 => foldMin_le l FMAX b (List.mem_cons_of_mem _ hb2)
  have hmem : l.foldl (fun acc v => if v < acc then v else acc) FMAX ∈ l := by
    rcases List.mem_cons.mp (foldMin_mem l FMAX) with h | h
    · obtain ⟨v0, hv0⟩ := List.exists_mem_of_ne_nil l hne
      have h1 := hle v0 hv0
      rw [h] at h1 ⊢
      have h2 : v0 = FMAX := le_antisymm (hb v0 hv0) h1
      exact h2 ▸ hv0
    · exact h
  exact (List.min?_eq_some_iff (fun x => le_refl x) (fun x y => min_choice x y)
    (fun _ _ _ => le_min_iff)).mpr ⟨hmem, hle⟩

lemma foldMax_spec (l : List ℚ) (hne : l ≠ [])
    (hb : ∀ v ∈ l, FMIN ≤ v) :
    l.max? = some (l.foldl (fun acc v => if v > acc then v else acc) FMIN) := by
  have hle : ∀ b ∈ l, b ≤ l.foldl (fun acc v => if v > acc then v else acc) FMIN :=
    fun b hb2 => foldMax_ge l FMIN b (List.mem_cons_of_mem _ hb2)
  have hmem : l.foldl (fun acc v => if v > acc then v else acc) FMIN ∈ l := by
    rcases List.mem_cons.mp (foldMax_mem l FMIN) with h | h
    · obtain ⟨v0, hv0⟩ := List.exists_mem_of_ne_nil l hne
      have h1 := hle v0 hv0
      rw [h] at h1 ⊢
      have h2 : v0 = FMIN := le_antisymm h1 (hb v0 hv0)
      exact h2 ▸ hv0
    · exact h
  exact (List.max?_eq_some_iff (fun x => le_refl x) (fun x y => max_choice x y)
    (fun _ _ _ => max_le_iff)).mpr ⟨hmem, hle⟩

/-- Claim C4: a record with explicit `x_range`/`y_range` renders with exactly
those ranges, whatever is buffered; a record without them renders with the
true minimum and maximum of the buffered x (resp. y) coordinates, provided at
least one sample is buffered and all samples are (finite) f64 values, i.e.
lie between `f64::MIN` and `f64::MAX`. -/
theorem axis_range_resolution (p q : Plot) (rx ry : FRange)
    (hp1 : p.options.x_range = some rx) (hp2 : p.options.y_range = some ry)
    (hq1 : q.options.x_range = none) (hq2 : q.options.y_range = none)
    (hnex : q.allX ≠ []) (hney : q.allY ≠ [])
    (hbx : ∀ v ∈ q.allX, FMIN ≤ v ∧ v ≤ FMAX)
    (hby : ∀ v ∈ q.allY, FMIN ≤ v ∧ v ≤ FMAX) :
    p.xRangeUsed = rx ∧ p.yRangeUsed = ry
    ∧ q.allX.min? = some q.xRangeUsed.start
    ∧ q.allX.max? = some q.xRangeUsed.stop
    ∧ q.allY.min? = some q.yRangeUsed.start
    ∧ q.allY.max? = some q.yRangeUsed.stop := by
  refine ⟨by rw [Plot.xRangeUsed, hp1, Option.getD_some],
    by rw [Plot.yRangeUsed, hp2, Option.getD_some], ?_, ?_, ?_, ?_⟩
  · rw [Plot.xRangeUsed, hq1, Option.getD_none]
    exact foldMin_spec q.allX hnex (fun v hv => (hbx v hv).2)
  · rw [Plot.xRangeUsed, hq1, Option.getD_none]
    exact foldMax_spec q.allX hnex (fun v hv => (hbx v hv).1)
  · rw [Plot.yRangeUsed, hq2, Option.getD_none]
    exact foldMin_spec q.allY hney (fun v hv => (hby v hv).2)
  · rw [Plot.yRangeUsed, hq2, Option.getD_none]
    exact foldMax_spec q.allY hney (fun v hv => (hby v hv).1)

def witRangeP : Plot :=
  { values := [[((50 : ℚ), (60 : ℚ))]]
    names := ["a"]
    options := { x_range := some ⟨0, 10⟩, y_range := some ⟨2, 3⟩ }
    iteration := 1 }

def witRangeQ : Plot :=
  { values := [[((1 : ℚ), (2 : ℚ)), ((3 : ℚ), (0 : ℚ))], [((2 : ℚ), (7 : ℚ))]]
    names := ["a", "b"]
    options := {}
    iteration := 2 }

/-- Witness for `axis_range_resolution`: explicit ranges pass through
unchanged; derived ranges are the buffered min/max. -/
theorem axis_range_resolution_witness :
    witRangeP.xRangeUsed = ⟨0, 10⟩ ∧ witRangeP.yRangeUsed = ⟨2, 3⟩
    ∧ witRangeQ.allX.min? = some witRangeQ.xRangeUsed.start
    ∧ witRangeQ.allX.max? = some witRangeQ.xRangeUsed.stop
    ∧ witRangeQ.allY.min? = some witRangeQ.yRangeUsed.start
    ∧ witRangeQ.allY.max? = some witRangeQ.yRangeUsed.stop :=
  axis_range_resolution witRangeP witRangeQ ⟨0, 10⟩ ⟨2, 3⟩ rfl rfl rfl rfl
    (by decide) (by decide) (by decide) (by decide)

/-! ## Color assignment -/

/-- Claim C9: the series color is the pure function
`HSLColor(i / total, 1.0, 0.5)` of the series index and the series count —
an evenly spaced hue sweep at fixed saturation and lightness — and two
distinct indices below the count receive distinct colors. -/
theorem color_assignment (i j total : Nat) (hi : i < total) (hj : j < total)
    (hij : i ≠ j) :
    colorFor i total = ⟨(i : ℚ) / (total : ℚ), 1, 1 / 2⟩
    ∧ colorFor i total ≠ colorFor j total := by
  refine ⟨rfl, ?_⟩
  intro h
  have ht : ((total : ℚ)) ≠ 0 := Nat.cast_ne_zero.mpr (by omega)
  have h1 : (i : ℚ) / (total : ℚ) = (j : ℚ) / (total : ℚ) :=
    congrArg HSLColor.h h
  field_simp at h1
  exact hij h1

/-- Witness for `color_assignment` at indices 0 and 1 of a two-series
record. -/
theorem color_assignment_witness :
    colorFor 0 2 = ⟨((0 : Nat) : ℚ) / ((2 : Nat) : ℚ), 1, 1 / 2⟩
    ∧ colorFor 0 2 ≠ colorFor 1 2 :=
  color_assignment 0 1 2 (by decide) (by decide) (by decide)

/-! ## Rendering a record with empty buffers -/

lemma flatten_replicate_nil {α : Type} (n : Nat) :
    (List.replicate n ([] : List α)).flatten = [] := by
  induction n with
  | zero => rfl
  | succ k ih => rw [List.replicate_succ, List.flatten_cons, ih, List.append_nil]

lemma seriesDesc_replicate_names : ∀ (ns : List String) (t i : Nat),
    (seriesDesc t i ns (List.replicate ns.length [])).map Prod.fst = ns
  | [], _, _ => rfl
  | n :: ns, t, i => by
      rw [List.length_cons, List.replicate_succ, seriesDesc, List.map_cons,
        seriesDesc_replicate_names ns t (i + 1)]

lemma seriesDesc_replicate_empty : ∀ (ns : List String) (t i : Nat),
    ∀ s ∈ seriesDesc t i ns (List.replicate ns.length []), s.2.2 = ([] : List Pt)
  | [], _, _ => by simp [seriesDesc]
  | n :: ns, t, i => by
      rw [List.length_cons, List.replicate_succ, seriesDesc]
      intro s hs
      rcases List.mem_cons.mp hs with rfl | hs2
      · rfl
      · exact seriesDesc_replicate_empty ns t (i + 1) s hs2

/-- Claim C5: rendering a freshly created record (zero insertions ever made,
so every series buffer is empty, with no explicit axis ranges) does not
panic in the chart-composition logic: `plot_to_file` resolves a path and
size, the derived ranges are the degenerate reversed sentinel range
`f64::MAX .. f64::MIN` (empty since its start exceeds its stop), and every
series is drawn with an empty point list. -/
theorem empty_buffers_render (names : List String) (loc : Location)
    (opts : Options) (hx : opts.x_range = none) (hy : opts.y_range = none) :
    ((PlotWrapper.new names loc opts).plot).plotToFile
      = some (opts.path.getD
            ("plots/" ++ sanitizeCaption (opts.caption.getD loc.display) ++ ".png"),
          opts.size.getD (640, 480),
          { caption := opts.caption.getD loc.display
            x_range := ⟨FMAX, FMIN⟩
            y_range := ⟨FMAX, FMIN⟩
            x_desc := opts.x_desc
            y_desc := opts.y_desc
            series := seriesDesc names.length 0 names
              (List.replicate names.length []) })
    ∧ FMIN < FMAX
    ∧ (seriesDesc names.length 0 names
        (List.replicate names.length [])).map Prod.fst = names
    ∧ ∀ s ∈ seriesDesc names.length 0 names (List.replicate names.length []),
        s.2.2 = ([] : List Pt) := by
  refine ⟨?_, ?_, seriesDesc_replicate_names names names.length 0,
    seriesDesc_replicate_empty names names.length 0⟩
  · rw [PlotWrapper.new]
    simp only [Plot.plotToFile, Plot.plotDesc, Plot.new, Plot.xRangeUsed,
      Plot.yRangeUsed, Plot.x_min, Plot.x_max, Plot.y_min, Plot.y_max, hx, hy,
      Option.map_some', List.map_replicate, List.map_nil, flatten_replicate_nil,
      List.foldl_nil, Option.getD_none]
  · rw [FMIN]
    have hpos : (0 : ℚ) < FMAX := by
      rw [FMAX]
      positivity
    linarith

/-- Witness for `empty_buffers_render`: a fresh one-series record with
explicit caption and path and no explicit ranges. -/
theorem empty_buffers_render_witness :
    ((PlotWrapper.new ["a"] witLoc witOpts).plot).plotToFile
      = some ((witOpts.path).getD
            ("plots/" ++ sanitizeCaption ((witOpts.caption).getD witLoc.display)
              ++ ".png"),
          (witOpts.size).getD (640, 480),
          { caption := (witOpts.caption).getD witLoc.display
            x_range := ⟨FMAX, FMIN⟩
            y_range := ⟨FMAX, FMIN⟩
            x_desc := witOpts.x_desc
            y_desc := witOpts.y_desc
            series := seriesDesc (List.length ["a"]) 0 ["a"]
              (List.replicate (List.length ["a"]) []) })
    ∧ FMIN < FMAX
    ∧ (seriesDesc (List.length ["a"]) 0 ["a"]
        (List.replicate (List.length ["a"]) [])).map Prod.fst = ["a"]
    ∧ ∀ s ∈ seriesDesc (List.length ["a"]) 0 ["a"]
        (List.replicate (List.length ["a"]) []), s.2.2 = ([] : List Pt) :=
  empty_buffers_render ["a"] witLoc witOpts rfl rfl

end DebugPlotter
